import Mathlib

/-!
# Verification of the PT-P710BT label maker core

A shallow embedding, in Lean 4, of the core of the `pt-p710bt-label-maker`
repository: the raster line codec (`label_rasterizer.py`), the status-frame
parser and error classifier (`status_message.py` together with
`PtP710LabelPrinter._receive_status_information_response` in
`label_printer.py`), the fixed command frames, and the print-session control
flow of `PtP710LabelPrinter.print_image`.

Bytes are modelled as `Nat` values (every byte read from a Python `bytes`
object lies in `[0, 255]`; arithmetic that could overflow a byte is reduced
`% 256` explicitly where the Python code serializes integers to bytes).
Byte strings are `List Nat`.

The run-length compressor and decompressor used by the codec are the external
`packbits` pip package, whose source is not part of the repository; they are
modelled from the specification's description of the algorithm (PackBits-style
literal/repeat runs) and are marked as such in their doc comments.
-/

namespace PtP710

/-! ## PackBits run-length codec

`label_rasterizer.py` calls `packbits.encode(chunk)` on each non-zero 16-byte
chunk.  The `packbits` package is an external dependency, so the compressor
and the decompressor are modelled from the spec's algorithm description:
scan left to right; a leading run of `n ≥ 2` identical bytes (capped at 128)
becomes a repeat run with control byte `257 - n ∈ [129, 255]`; otherwise a
maximal span with no two adjacent equal bytes (capped at 128) becomes a
literal run with control byte `span length - 1 ∈ [0, 127]` followed by the
span verbatim.  Ties (runs of exactly 2) take the repeat encoding.
-/

/-- Length of the run of byte `b` at the front of `l`. -/
def runLength (b : Nat) : List Nat → Nat
  | [] => 0
  | c :: rest => if c = b then runLength b rest + 1 else 0

/-- Length of the maximal prefix of `l` containing no two adjacent equal
bytes (the span a literal run may cover, before capping at 128). -/
def literalLength : List Nat → Nat
  | [] => 0
  | [_] => 1
  | a :: b :: rest => if a = b then 0 else literalLength (b :: rest) + 1

/-- Fuel-indexed body of the compressor; the fuel only bounds the recursion
depth (one unit per emitted run) and never runs out when it starts at the
input length, see `packbitsEncodeGo_congr`. -/
def packbitsEncodeGo : Nat → List Nat → List Nat
  | _, [] => []
  | 0, _ :: _ => []
  | fuel + 1, b :: rest =>
    let r := runLength b rest + 1
    if 2 ≤ r then
      let n := min r 128
      (257 - n) :: b :: packbitsEncodeGo fuel (List.drop (n - 1) rest)
    else
      let k := min (literalLength (b :: rest)) 128
      (k - 1) :: ((b :: List.take (k - 1) rest) ++ packbitsEncodeGo fuel (List.drop (k - 1) rest))

/-- Modelled from the spec: the PackBits-style compressor implemented by the
external `packbits` package (`packbits.encode`), which is not part of the
repository source.  Scan left to right; repeat runs of `n ∈ [2,128]`
identical bytes emit control byte `257 - n` then the byte; literal spans of
`k ∈ [1,128]` bytes with no adjacent repetition emit control byte `k - 1`
then the span verbatim; ties (runs of exactly 2) take the repeat encoding. -/
def packbitsEncode (l : List Nat) : List Nat := packbitsEncodeGo l.length l

/-- The fuel-indexed compressor on the empty string, any fuel. -/
theorem packbitsEncodeGo_nil (fuel : Nat) : packbitsEncodeGo fuel [] = [] := by
  cases fuel <;> rfl

/-- The compressor's fuel is irrelevant as long as it dominates the input
length. -/
theorem packbitsEncodeGo_congr :
    ∀ (fuel fuel2 : Nat) (l : List Nat), l.length ≤ fuel → l.length ≤ fuel2 →
      packbitsEncodeGo fuel l = packbitsEncodeGo fuel2 l := by
  intro fuel
  induction fuel with
  | zero =>
    intro fuel2 l h1 _
    have : l = [] := List.eq_nil_of_length_eq_zero (by omega)
    subst this
    rw [packbitsEncodeGo_nil, packbitsEncodeGo_nil]
  | succ fuel ih =>
    intro fuel2 l h1 h2
    match l, fuel2 with
    | [], f2 => rw [packbitsEncodeGo_nil, packbitsEncodeGo_nil]
    | b :: rest, fuel2 + 1 =>
      simp only [List.length_cons] at h1 h2
      simp only [packbitsEncodeGo]
      by_cases hr : 2 ≤ runLength b rest + 1
      · simp only [if_pos hr]
        rw [ih fuel2 (List.drop (min (runLength b rest + 1) 128 - 1) rest)
          (by simp only [List.length_drop]; omega)
          (by simp only [List.length_drop]; omega)]
      · simp only [if_neg hr]
        rw [ih fuel2 (List.drop (min (literalLength (b :: rest)) 128 - 1) rest)
          (by simp only [List.length_drop]; omega)
          (by simp only [List.length_drop]; omega)]

/-- `packbitsEncode` on the empty byte string. -/
theorem packbitsEncode_nil : packbitsEncode [] = [] := rfl

/-- Modelled from the spec: the PackBits decompressor (needed for the
round-trip property; not present in the repository source).  Control byte
`c ∈ [0,127]` copies the next `c + 1` bytes verbatim; `c ∈ [129,255]`
repeats the following byte `257 - c` times; anything else (including a
truncated stream) is a malformed-stream error, `none`. -/
def packbitsDecode : List Nat → Option (List Nat)
  | [] => some []
  | c :: rest =>
    if c ≤ 127 then
      if c + 1 ≤ rest.length then
        (packbitsDecode (List.drop (c + 1) rest)).map (List.take (c + 1) rest ++ ·)
      else none
    else if c ≤ 255 ∧ 129 ≤ c then
      match rest with
      | [] => none
      | b :: rest2 => (packbitsDecode rest2).map (List.replicate (257 - c) b ++ ·)
    else none
termination_by l => l.length
decreasing_by
  · simp only [List.length_cons, List.length_drop]
    omega
  · simp only [List.length_cons]
    omega

/-! ## Raster line codec (`label_rasterizer.py`, `rasterize`)

Faithful to the source: the input buffer is cut into chunks of
`CHUNK_SIZE = 16` bytes; a chunk equal to `ZERO_CHUNK` (sixteen `0x00`
bytes) yields the single command byte `0x5A`; any other chunk yields the
command byte `0x47`, the compressed payload's length as two little-endian
bytes, then the payload.  (Python's `int.to_bytes(2, "little")` raises
`OverflowError` at `2^16`; the model reduces modulo 256 per byte, which
agrees with the source for all lengths below `2^16` — payloads here are at
most 32 bytes long, see `packbitsEncode_length_le`.) -/

def CHUNK_SIZE : Nat := 16

def ZERO_CHUNK : List Nat := List.replicate CHUNK_SIZE 0

/-- Two little-endian bytes of `n` (`n.to_bytes(2, "little")`). -/
def toBytesLE2 (n : Nat) : List Nat := [n % 256, n / 256 % 256]

/-- Four little-endian bytes of `n` (`n.to_bytes(4, "little")`). -/
def toBytesLE4 (n : Nat) : List Nat :=
  [n % 256, n / 256 % 256, n / (256 * 256) % 256, n / (256 * 256 * 256) % 256]

/-- The body of the `rasterize` loop for one chunk: the wire bytes of one
raster line. -/
def rasterizeChunk (chunk : List Nat) : List Nat :=
  if chunk = ZERO_CHUNK then
    [0x5A]
  else
    0x47 :: (toBytesLE2 (packbitsEncode chunk).length ++ packbitsEncode chunk)

/-- Fuel-indexed body of `rasterize`; the fuel (one unit per chunk) never
runs out when it starts at the input length. -/
def rasterizeGo : Nat → List Nat → List (List Nat)
  | _, [] => []
  | 0, _ :: _ => []
  | fuel + 1, a :: rest =>
    rasterizeChunk ((a :: rest).take CHUNK_SIZE)
      :: rasterizeGo fuel (rest.drop (CHUNK_SIZE - 1))

/-- `rasterize(encoded_image_data)`: one wire line per 16-byte slice of the
buffer, in order (`range(0, len, 16)` with slicing; a trailing slice shorter
than 16 bytes is passed to the chunk encoder as-is, like the Python slice). -/
def rasterize (l : List Nat) : List (List Nat) := rasterizeGo l.length l

/-- Decoder for one raster line, following the spec's wire format: `[0x5A]`
decodes to sixteen zero bytes; `0x47` followed by a two-byte little-endian
length and that many payload bytes decodes the payload with PackBits. -/
def rasterLineDecode (line : List Nat) : Option (List Nat) :=
  match line with
  | [0x5A] => some ZERO_CHUNK
  | 0x47 :: l0 :: l1 :: payload =>
    if payload.length = l0 + 256 * l1 then packbitsDecode payload else none
  | _ => none

/-! ## Status frames (`status_message.py`)

`RawStatusMessage.__init__` rejects any response whose length is not exactly
32 bytes with `InvalidStatusResponseException(len)` before unpacking any
field, then reads the named fields at fixed offsets (`phase_number` is the
big-endian 16-bit integer at offsets 20–21). -/

structure RawStatusMessage where
  error_information1 : Nat
  error_information2 : Nat
  media_width : Nat
  media_type : Nat
  mode : Nat
  media_length : Nat
  status_type : Nat
  phase_type : Nat
  phase_number : Nat
  notification_number : Nat
  tape_color : Nat
  text_color : Nat
  hardware_settings : Nat
deriving DecidableEq, Repr

/-- The status types of `RawStatusMessage.StatusType`. -/
def StatusType.REPLY_TO_STATUS_REQUEST : Nat := 0x00
def StatusType.PRINTING_COMPLETED : Nat := 0x01
def StatusType.ERROR_OCCURRED : Nat := 0x02
def StatusType.TURNED_OFF : Nat := 0x04
def StatusType.NOTIFICATION : Nat := 0x05
def StatusType.PHASE_CHANGE : Nat := 0x06

/-- Every exception the status path can raise, plus the typed printer
errors of `exceptions.py`. -/
inductive PrinterErr where
  | invalidStatusResponse (length : Nat)
  | invalidStatusCode (code : Nat)
  | deviceTurnedOff
  | noMedia
  | cutterJam
  | weakBatteries
  | highVoltageAdapter
  | wrongMedia
  | coverOpen
  | overheating
  | unknownStatusMessage
  | valueError
deriving DecidableEq, Repr

/-- `RawStatusMessage.__init__`: length guard first, then field extraction at
the fixed offsets (all in range once the length is exactly 32). -/
def parseRawStatusMessage (raw : List Nat) : Except PrinterErr RawStatusMessage :=
  if raw.length ≠ 32 then
    .error (.invalidStatusResponse raw.length)
  else
    .ok
      { error_information1 := raw.getD 8 0
        error_information2 := raw.getD 9 0
        media_width := raw.getD 10 0
        media_type := raw.getD 11 0
        mode := raw.getD 15 0
        media_length := raw.getD 17 0
        status_type := raw.getD 18 0
        phase_type := raw.getD 19 0
        phase_number := raw.getD 20 0 * 256 + raw.getD 21 0
        notification_number := raw.getD 22 0
        tape_color := raw.getD 24 0
        text_color := raw.getD 25 0
        hardware_settings := raw.getD 26 0 }

/-- The `StatusMessage` subclasses that
`_receive_status_information_response` can return. -/
inductive StatusMsg where
  | replyToStatusRequest
  | printingCompleted
  | notification
  | phaseChange
deriving DecidableEq, Repr

/-- Values of `ReplyToStatusRequest.MediaType`. -/
def mediaTypeValues : List Nat := [0x00, 0x01, 0x03, 0x11, 0xFF]

/-- Values of `ReplyToStatusRequest.TapeColor`. -/
def tapeColorValues : List Nat :=
  [0x01, 0x02, 0x03, 0x04, 0x05, 0x06, 0x07, 0x08, 0x09,
   0x20, 0x21, 0x22, 0x23, 0x24, 0x30, 0x31, 0x40, 0x41,
   0x50, 0x51, 0x52, 0x60, 0x61, 0x62, 0x70, 0x90, 0x91,
   0xF0, 0xF1, 0xFF]

/-- Values of `ReplyToStatusRequest.TextColor`. -/
def textColorValues : List Nat :=
  [0x01, 0x02, 0x04, 0x05, 0x08, 0x0A, 0x62, 0xF0, 0xF1, 0xFF]

/-- `ReplyToStatusRequest.__init__`: the three `IntEnum` name lookups raise
`ValueError` on a value outside the enumeration; otherwise the constructor
succeeds. -/
def mkReplyToStatusRequest (raw : RawStatusMessage) : Except PrinterErr StatusMsg :=
  if raw.media_type ∈ mediaTypeValues ∧ raw.tape_color ∈ tapeColorValues ∧
      raw.text_color ∈ textColorValues then
    .ok .replyToStatusRequest
  else
    .error .valueError

/-- `Notification.__init__`: `NotificationNumber` lookup (`0x00`–`0x02`). -/
def mkNotification (raw : RawStatusMessage) : Except PrinterErr StatusMsg :=
  if raw.notification_number ∈ [0x00, 0x01, 0x02] then .ok .notification
  else .error .valueError

/-- `PhaseChange.__init__`: `PhaseType` lookup first (`0x00` editing, `0x01`
printing), then the phase-number enumeration of that phase type; any other
value raises `ValueError`.  (`PrintingCompleted.__init__` never raises:
`Mode` is an `IntFlag`, which keeps unknown bits.) -/
def mkPhaseChange (raw : RawStatusMessage) : Except PrinterErr StatusMsg :=
  if raw.phase_type = 0x01 then
    if raw.phase_number ∈ [0x0000, 0x0014] then .ok .phaseChange
    else .error .valueError
  else if raw.phase_type = 0x00 then
    if raw.phase_number ∈ [0x0000, 0x0001] then .ok .phaseChange
    else .error .valueError
  else .error .valueError

/-- The status-type dispatch and error classification of
`PtP710LabelPrinter._receive_status_information_response`
(`label_printer.py` lines 121–148), after the raw message has been parsed:
the chain of `if raw.status_type == ...` branches, then — for an
`ERROR_OCCURRED` frame — the chain of `if raw.error_information1 == 0x01`
... `if raw.error_information2 == 0x20` equality comparisons, falling
through to `UnknownStatusMessageError`. -/
def classifyStatus (raw : RawStatusMessage) : Except PrinterErr StatusMsg :=
  if raw.status_type = StatusType.TURNED_OFF then .error .deviceTurnedOff
  else if raw.status_type = StatusType.REPLY_TO_STATUS_REQUEST then
    mkReplyToStatusRequest raw
  else if raw.status_type = StatusType.PRINTING_COMPLETED then .ok .printingCompleted
  else if raw.status_type = StatusType.NOTIFICATION then mkNotification raw
  else if raw.status_type = StatusType.PHASE_CHANGE then mkPhaseChange raw
  else if raw.status_type ≠ StatusType.ERROR_OCCURRED then
    .error (.invalidStatusCode raw.status_type)
  else if raw.error_information1 = 0x01 then .error .noMedia
  else if raw.error_information1 = 0x04 then .error .cutterJam
  else if raw.error_information1 = 0x08 then .error .weakBatteries
  else if raw.error_information1 = 0x40 then .error .highVoltageAdapter
  else if raw.error_information2 = 0x01 then .error .wrongMedia
  else if raw.error_information2 = 0x10 then .error .coverOpen
  else if raw.error_information2 = 0x20 then .error .overheating
  else .error .unknownStatusMessage

/-- `_receive_status_information_response` applied to the 32 bytes returned
by `self._device.receive(32)`: parse, then dispatch/classify. -/
def receiveStatusInformationResponse (frame : List Nat) : Except PrinterErr StatusMsg := do
  classifyStatus (← parseRawStatusMessage frame)

/-! ## Media info (`media_info.py`)

The two lookup tables, as partial maps: a missing key is Python's
`KeyError`.  The key `4` denotes 3.5 mm tape. -/

def TAPE_MM_TO_PX (mm : Nat) : Option Nat :=
  if mm = 24 then some 128
  else if mm = 18 then some 112
  else if mm = 12 then some 70
  else if mm = 9 then some 50
  else if mm = 6 then some 32
  else if mm = 4 then some 24
  else none

def TAPE_MM_TO_MARGIN_PX (mm : Nat) : Option Nat :=
  if mm = 24 then some 0
  else if mm = 18 then some 8
  else if mm = 12 then some 29
  else if mm = 9 then some 39
  else if mm = 6 then some 48
  else if mm = 4 then some 52
  else none

/-! ## Image encoder (`label_rasterizer.py`, `encode_png`)

The PNG reader (external `png` package) hands `encode_png` the decoded RGBA
rows: one row per image scan line, four values (R, G, B, A) per pixel.  The
embedding takes those rows directly; the image height is the number of rows.

`row[3::4]` extracts the alpha channel; `zip(*rows)` transposes (truncating
to the shortest row, like Python's `zip`); each resulting line is padded
with the margin on both sides and packed 8 pixels per byte, most significant
bit first (`byte |= lt1 << (7 - j)` for `value > 0`).  Python indexes
`line[i + j]` for `j < 8` from `range(0, len(line), 8)` and would raise
`IndexError` on a length not divisible by 8; the model reads absent
positions as 0, which agrees with the source whenever the padded length is a
multiple of 8 (it is always 128 for a row-height-checked image, see
`C10_line_geometry`). -/

/-- `row[3::4]`: every fourth element starting at index 3. -/
def alphaChannel : List Nat → List Nat
  | _ :: _ :: _ :: a :: rest => a :: alphaChannel rest
  | _ => []

/-- The length of Python's `zip(*ls)` for nonempty `ls`: the minimum row
length. -/
def minLength (l : List Nat) (ls : List (List Nat)) : Nat :=
  ls.foldl (fun m r => min m r.length) l.length

/-- Python `zip(*ls)`: the list of columns, truncated at the shortest row;
`zip()` of no arguments is empty. -/
def pyZip (ls : List (List Nat)) : List (List Nat) :=
  match ls with
  | [] => []
  | l :: rest =>
    (List.range (minLength l rest)).map fun i => ls.map fun r => r.getD i 0

/-- One byte from up to 8 pixel values: bit `7 - j` is set when the `j`-th
value is positive. -/
def packByte : List Nat → Nat → Nat
  | [], _ => 0
  | v :: vs, j => (if v > 0 then 2 ^ (7 - j) else 0) ||| packByte vs (j + 1)

/-- Fuel-indexed body of `packLine`; the fuel (one unit per output byte)
never runs out when it starts at the input length. -/
def packLineGo : Nat → List Nat → List Nat
  | _, [] => []
  | 0, _ :: _ => []
  | fuel + 1, a :: rest => packByte ((a :: rest).take 8) 0 :: packLineGo fuel (rest.drop 7)

/-- Pack one padded line, 8 values per byte (`range(0, len(line), 8)`). -/
def packLine (l : List Nat) : List Nat := packLineGo l.length l

/-- `encode_png(data, tape_mm)` — with the PNG already decoded to `rows`.
Order of effects as in the source: `TAPE_MM_TO_PX[tape_mm]` (KeyError on an
unknown width), the height check raising
`InvalidImageHeightException(expected, actual)`, the margin lookup, then the
buffer build. -/
def encode_png (rows : List (List Nat)) (tape_mm : Nat) :
    Except (Nat ⊕ (Nat × Nat)) (List Nat) :=
  match TAPE_MM_TO_PX tape_mm with
  | none => .error (.inl tape_mm)
  | some expected_height =>
    if rows.length ≠ expected_height then
      .error (.inr (expected_height, rows.length))
    else
      match TAPE_MM_TO_MARGIN_PX tape_mm with
      | none => .error (.inl tape_mm)
      | some marginPx =>
        let margin : List Nat := List.replicate marginPx 0
        let data := pyZip (rows.map alphaChannel)
        .ok ((data.map fun line => packLine (margin ++ line ++ margin)).flatten)

/-! ## Command frames and the print session (`label_printer.py`)

`PtP710LabelPrinter.print_image` is modelled as a trace-producing function:
the encoded bitmap buffer (`data`, the result of `encode_png`), the number
of copies, and the finite list of 32-byte-frame reads the transport will
deliver are the inputs; the output records every `send`/`receive` on the
transport, in order, together with how the session ended: `done` (the method
returned), `raised e` (a Python exception propagated), or `blocked` (the
session is inside a blocking `receive` with no further incoming data — the
unbounded `while` loop's only other fate). -/

inductive Event where
  | send (bytes : List Nat)
  | recv (frame : List Nat)
deriving DecidableEq, Repr

inductive Outcome where
  | done
  | raised (e : PrinterErr)
  | blocked
deriving DecidableEq, Repr

structure Run where
  out : Outcome
  events : List Event
deriving DecidableEq, Repr

/-- `_send_print_information_command(data_length)`: three `send` calls —
`b"\x1B\x69\x7A\x84\x00\x18\x00"` (the tape-width byte is hardcoded to
`0x18` = 24 mm, flagged `@TODO tape width is set here` in the source), then
`(data_length >> 4).to_bytes(4, "little")`, then `b"\x00\x00"`. -/
def printInformationSends (data_length : Nat) : List Event :=
  [.send [0x1B, 0x69, 0x7A, 0x84, 0x00, 0x18, 0x00],
   .send (toBytesLE4 (data_length >>> 4)),
   .send [0x00, 0x00]]

/-- The full print-information command as a byte sequence: the concatenation
of the three sends of `_send_print_information_command`. -/
def printInformationCommand (data_length : Nat) : List Nat :=
  [0x1B, 0x69, 0x7A, 0x84, 0x00, 0x18, 0x00] ++ toBytesLE4 (data_length >>> 4)
    ++ [0x00, 0x00]

/-- The configuration sends of `print_image` between the initial status
exchange and the copies loop: raster mode, automatic status notification,
print information, mode settings (`Mode.AUTO_CUT = 0x40`), advanced mode
settings, margin amount, compression mode. -/
def configSends (data_length : Nat) : List Event :=
  [.send [0x1B, 0x69, 0x61, 0x01],
   .send [0x1B, 0x69, 0x21, 0x00]]
  ++ printInformationSends data_length
  ++ [.send [0x1B, 0x69, 0x4D, 0x40],
      .send [0x1B, 0x69, 0x4B, 0x08],
      .send [0x1B, 0x69, 0x64, 0x00, 0x00],
      .send [0x4D, 0x02]]

/-- `_send_raster_data(data)`: one `send` per line yielded by
`rasterize(data)`, in order. -/
def rasterDataSends (data : List Nat) : List Event :=
  (rasterize data).map .send

/-- The `while not isinstance(status, PrintingCompleted)` loop: each
iteration performs `_receive_status_information_response()`.  Returns the
receive events together with either the final status and the remaining
frames, or the way the loop aborted (`none` = out of incoming data while
blocked in `receive`, `some e` = exception `e` raised). -/
def pollUntilCompleted (status : StatusMsg) (frames : List (List Nat)) :
    List Event × Except (Option PrinterErr) (StatusMsg × List (List Nat)) :=
  match status with
  | .printingCompleted => ([], .ok (status, frames))
  | _ =>
    match frames with
    | [] => ([], .error none)
    | f :: rest =>
      match receiveStatusInformationResponse f with
      | .error e => ([.recv f], .error (some e))
      | .ok s =>
        let tail := pollUntilCompleted s rest
        (.recv f :: tail.1, tail.2)

/-- The `for i in range(0, num_copies)` loop of `print_image`: with
`remaining` iterations left and `i` the current index (the session enters
with `i = 0`, `remaining = num_copies`, and the two stay linked by
`i + remaining = num_copies`), send the raster data, send print-with-feeding
on the last copy (`i == num_copies - 1`) and print-without-feeding
otherwise, then run the completion-wait loop. -/
def copiesLoop (data : List Nat) (num_copies : Nat) :
    Nat → Nat → StatusMsg → List (List Nat) → Run
  | _, 0, _, _ => ⟨.done, []⟩
  | i, remaining + 1, status, frames =>
    let evs := rasterDataSends data
      ++ [Event.send (if i = num_copies - 1 then [0x1A] else [0x0C])]
    let poll := pollUntilCompleted status frames
    match poll.2 with
    | .error none => ⟨.blocked, evs ++ poll.1⟩
    | .error (some e) => ⟨.raised e, evs ++ poll.1⟩
    | .ok (s, rest) =>
      let next := copiesLoop data num_copies (i + 1) remaining s rest
      ⟨next.out, evs ++ poll.1 ++ next.events⟩

/-- `print_image(image, num_copies)` after `encode_png` has produced `data`:
invalidate (100 null bytes), initialize, status request, one status
receive, the configuration sends, then the copies loop.  `frames` is the
sequence of byte strings the transport's successive `receive(32)` calls
return. -/
def printImage (data : List Nat) (num_copies : Nat) (frames : List (List Nat)) : Run :=
  let pre : List Event :=
    [.send (List.replicate 100 0), .send [0x1B, 0x40], .send [0x1B, 0x69, 0x53]]
  match frames with
  | [] => ⟨.blocked, pre⟩
  | f :: rest =>
    match receiveStatusInformationResponse f with
    | .error e => ⟨.raised e, pre ++ [.recv f]⟩
    | .ok status =>
      let body := copiesLoop data num_copies 0 num_copies status rest
      ⟨body.out, pre ++ [.recv f] ++ configSends data.length ++ body.events⟩

/-! ## The spec's error-classification rule, and concrete frames -/

/-- The ErrorOccurred classification rule exactly as the spec states it, for
comparison with the code's `classifyStatus`: the first matching *bit* wins
(`error_information1` bits `0x01`, `0x04`, `0x08`, `0x40`, then
`error_information2` bits `0x01`, `0x10`, `0x20`), so it depends only on the
presence of the individual bits, not on the whole byte equalling the flag
value. -/
def specErrorClassify (e1 e2 : Nat) : PrinterErr :=
  if e1 &&& 0x01 ≠ 0 then .noMedia
  else if e1 &&& 0x04 ≠ 0 then .cutterJam
  else if e1 &&& 0x08 ≠ 0 then .weakBatteries
  else if e1 &&& 0x40 ≠ 0 then .highVoltageAdapter
  else if e2 &&& 0x01 ≠ 0 then .wrongMedia
  else if e2 &&& 0x10 ≠ 0 then .coverOpen
  else if e2 &&& 0x20 ≠ 0 then .overheating
  else .unknownStatusMessage

/-- A 32-byte ERROR_OCCURRED frame (`byte[18] = 0x02`) with the given
`error_information1` (offset 8) and `error_information2` (offset 9) bytes,
all other bytes zero. -/
def errorFrame (e1 e2 : Nat) : List Nat :=
  [0, 0, 0, 0, 0, 0, 0, 0, e1, e2, 0, 0, 0, 0, 0, 0,
   0, 0, 2, 0, 0, 0, 0, 0, 0, 0, 0, 0, 0, 0, 0, 0]

/-- A 32-byte REPLY_TO_STATUS_REQUEST frame (`byte[18] = 0x00`) with
`media_type = NO_MEDIA`, `tape_color = WHITE`, `text_color = WHITE`. -/
def replyFrame : List Nat :=
  [0, 0, 0, 0, 0, 0, 0, 0, 0, 0, 0, 0, 0, 0, 0, 0,
   0, 0, 0, 0, 0, 0, 0, 0, 1, 1, 0, 0, 0, 0, 0, 0]

/-- A 32-byte PRINTING_COMPLETED frame (`byte[18] = 0x01`), all other bytes
zero. -/
def completedFrame : List Nat :=
  [0, 0, 0, 0, 0, 0, 0, 0, 0, 0, 0, 0, 0, 0, 0, 0,
   0, 0, 1, 0, 0, 0, 0, 0, 0, 0, 0, 0, 0, 0, 0, 0]

/-! ## Lemmas about the PackBits codec -/

theorem runLength_le (b : Nat) (l : List Nat) : runLength b l ≤ l.length := by
  induction l with
  | nil => simp [runLength]
  | cons c rest ih =>
    simp only [runLength, List.length_cons]
    split <;> omega

theorem take_runLength (b : Nat) (l : List Nat) (k : Nat) (hk : k ≤ runLength b l) :
    l.take k = List.replicate k b := by
  induction l generalizing k with
  | nil =>
    simp only [runLength, Nat.le_zero] at hk
    subst hk
    rfl
  | cons c rest ih =>
    simp only [runLength] at hk
    by_cases hc : c = b
    · subst hc
      rw [if_pos rfl] at hk
      match k with
      | 0 => rfl
      | k + 1 =>
        simp only [List.take_succ_cons, List.replicate_succ]
        rw [ih k (by omega)]
    · rw [if_neg hc] at hk
      interval_cases k
      rfl


theorem literalLength_le (l : List Nat) : literalLength l ≤ l.length := by
  induction l using literalLength.induct with
  | case1 => simp [literalLength]
  | case2 => simp [literalLength]
  | case3 b rest => simp [literalLength]
  | case4 a b rest hab ih =>
    simp only [literalLength, if_neg hab, List.length_cons] at ih ⊢
    omega

theorem literalLength_pos (b : Nat) (rest : List Nat) (h : runLength b rest = 0) :
    1 ≤ literalLength (b :: rest) := by
  match rest with
  | [] => simp [literalLength]
  | c :: r2 =>
    simp only [runLength] at h
    have hc : ¬(c = b) := by intro hc; rw [if_pos hc] at h; omega
    have hbc : ¬(b = c) := fun h2 => hc h2.symm
    simp only [literalLength, if_neg hbc]
    omega

theorem literalLength_of_chain (l : List Nat) (h : List.Chain' (· ≠ ·) l) :
    literalLength l = l.length := by
  induction l using literalLength.induct with
  | case1 => rfl
  | case2 => rfl
  | case3 b rest =>
    rw [List.chain'_cons] at h
    exact absurd rfl h.1
  | case4 a b rest hab ih =>
    rw [List.chain'_cons] at h
    simp only [literalLength, if_neg hab, List.length_cons, ih h.2]


/-- Unfolding lemma for `packbitsEncode` on a nonempty list. -/
theorem packbitsEncode_cons (b : Nat) (rest : List Nat) :
    packbitsEncode (b :: rest) =
      if 2 ≤ runLength b rest + 1 then
        (257 - min (runLength b rest + 1) 128) :: b ::
          packbitsEncode (List.drop (min (runLength b rest + 1) 128 - 1) rest)
      else
        (min (literalLength (b :: rest)) 128 - 1) ::
          ((b :: List.take (min (literalLength (b :: rest)) 128 - 1) rest) ++
            packbitsEncode (List.drop (min (literalLength (b :: rest)) 128 - 1) rest)) := by
  show packbitsEncodeGo (b :: rest).length (b :: rest) = _
  simp only [List.length_cons, packbitsEncodeGo]
  by_cases hr : 2 ≤ runLength b rest + 1
  · simp only [if_pos hr]
    rw [packbitsEncodeGo_congr rest.length
      (List.drop (min (runLength b rest + 1) 128 - 1) rest).length
      (List.drop (min (runLength b rest + 1) 128 - 1) rest)
      (by simp only [List.length_drop]; omega) (Nat.le_refl _)]
    rfl
  · simp only [if_neg hr]
    rw [packbitsEncodeGo_congr rest.length
      (List.drop (min (literalLength (b :: rest)) 128 - 1) rest).length
      (List.drop (min (literalLength (b :: rest)) 128 - 1) rest)
      (by simp only [List.length_drop]; omega) (Nat.le_refl _)]
    rfl

/-- Unfolding lemma for `packbitsDecode` on a nonempty list. -/
theorem packbitsDecode_cons (c : Nat) (rest : List Nat) :
    packbitsDecode (c :: rest) =
      if c ≤ 127 then
        if c + 1 ≤ rest.length then
          (packbitsDecode (List.drop (c + 1) rest)).map (List.take (c + 1) rest ++ ·)
        else none
      else if c ≤ 255 ∧ 129 ≤ c then
        match rest with
        | [] => none
        | b :: rest2 => (packbitsDecode rest2).map (List.replicate (257 - c) b ++ ·)
      else none := by
  rw [packbitsDecode.eq_def]

/-- `packbitsDecode` on a repeat run. -/
theorem packbitsDecode_repeat (c b : Nat) (rest2 : List Nat) (h1 : 129 ≤ c)
    (h2 : c ≤ 255) :
    packbitsDecode (c :: b :: rest2) =
      (packbitsDecode rest2).map (List.replicate (257 - c) b ++ ·) := by
  rw [packbitsDecode_cons, if_neg (by omega), if_pos (by exact ⟨h2, h1⟩)]

/-- `packbitsDecode` on a literal run with enough data bytes. -/
theorem packbitsDecode_literal (c : Nat) (rest : List Nat) (h : c ≤ 127)
    (hlen : c + 1 ≤ rest.length) :
    packbitsDecode (c :: rest) =
      (packbitsDecode (List.drop (c + 1) rest)).map (List.take (c + 1) rest ++ ·) := by
  rw [packbitsDecode_cons, if_pos h, if_pos hlen]

/-- Auxiliary strong-induction form of the PackBits round-trip. -/
theorem packbits_roundtrip_aux :
    ∀ (n : Nat) (l : List Nat), l.length ≤ n →
      packbitsDecode (packbitsEncode l) = some l := by
  intro n
  induction n with
  | zero =>
    intro l hl
    have : l = [] := List.eq_nil_of_length_eq_zero (by omega)
    subst this
    rw [packbitsEncode_nil, packbitsDecode.eq_1]
  | succ n ih =>
    intro l hl
    match l with
    | [] =>
      rw [packbitsEncode_nil, packbitsDecode.eq_1]
    | b :: rest =>
      by_cases h2 : 2 ≤ runLength b rest + 1
      · -- leading repeat run
        rw [packbitsEncode_cons, if_pos h2]
        set m := min (runLength b rest + 1) 128 with hm
        have hm2 : 2 ≤ m := by rw [hm]; omega
        have hm128 : m ≤ 128 := by rw [hm]; omega
        have hmrun : m - 1 ≤ runLength b rest := by
          have := runLength_le b rest
          rw [hm]; omega
        rw [packbitsDecode_repeat _ _ _ (by omega) (by omega)]
        have hlen : (List.drop (m - 1) rest).length ≤ n := by
          simp only [List.length_drop]
          simp only [List.length_cons] at hl
          omega
        rw [ih _ hlen]
        simp only [Option.map_some']
        congr 1
        have h257 : 257 - (257 - m) = m := by omega
        rw [h257]
        have hrep : List.take (m - 1) rest = List.replicate (m - 1) b :=
          take_runLength b rest (m - 1) hmrun
        calc List.replicate m b ++ List.drop (m - 1) rest
            = b :: (List.replicate (m - 1) b ++ List.drop (m - 1) rest) := by
              have hm1 : m = (m - 1) + 1 := by omega
              rw [hm1, List.replicate_succ]
              rfl
          _ = b :: (List.take (m - 1) rest ++ List.drop (m - 1) rest) := by rw [hrep]
          _ = b :: rest := by rw [List.take_append_drop]
      · -- leading literal span
        have hrun0 : runLength b rest = 0 := by omega
        rw [packbitsEncode_cons, if_neg h2]
        set k := min (literalLength (b :: rest)) 128 with hk
        have hk1 : 1 ≤ k := by
          have := literalLength_pos b rest hrun0
          rw [hk]; omega
        have hk128 : k ≤ 128 := by rw [hk]; omega
        have hkrest : k - 1 ≤ rest.length := by
          have := literalLength_le (b :: rest)
          simp only [List.length_cons] at this
          rw [hk]; omega
        have htklen : (b :: List.take (k - 1) rest).length = k := by
          simp only [List.length_cons, List.length_take]
          omega
        have hlen2 : ((b :: List.take (k - 1) rest) ++
            packbitsEncode (List.drop (k - 1) rest)).length =
            k + (packbitsEncode (List.drop (k - 1) rest)).length := by
          simp only [List.length_append, htklen]
        rw [packbitsDecode_literal _ _ (by omega) (by rw [hlen2]; omega)]
        have hsucc : k - 1 + 1 = k := by omega
        have htake : List.take (k - 1 + 1)
            ((b :: List.take (k - 1) rest) ++ packbitsEncode (List.drop (k - 1) rest)) =
            b :: List.take (k - 1) rest := by
          have ht := List.take_left (b :: List.take (k - 1) rest)
            (packbitsEncode (List.drop (k - 1) rest))
          rw [htklen] at ht
          rw [hsucc, ht]
        have hdrop : List.drop (k - 1 + 1)
            ((b :: List.take (k - 1) rest) ++ packbitsEncode (List.drop (k - 1) rest)) =
            packbitsEncode (List.drop (k - 1) rest) := by
          have hd := List.drop_left (b :: List.take (k - 1) rest)
            (packbitsEncode (List.drop (k - 1) rest))
          rw [htklen] at hd
          rw [hsucc, hd]
        rw [htake, hdrop]
        have hlen3 : (List.drop (k - 1) rest).length ≤ n := by
          simp only [List.length_drop]
          simp only [List.length_cons] at hl
          omega
        rw [ih _ hlen3]
        simp only [Option.map_some']
        congr 1
        simp only [List.cons_append, List.take_append_drop]

/-- PackBits round-trip: decompressing the compressed form of any byte
string gives back exactly that byte string. -/
theorem packbits_roundtrip (l : List Nat) :
    packbitsDecode (packbitsEncode l) = some l :=
  packbits_roundtrip_aux l.length l (Nat.le_refl _)

/-- Auxiliary strong-induction form of the expansion bound. -/
theorem packbitsEncode_length_le_aux :
    ∀ (n : Nat) (l : List Nat), l.length ≤ n →
      (packbitsEncode l).length ≤ 2 * l.length := by
  intro n
  induction n with
  | zero =>
    intro l hl
    have : l = [] := List.eq_nil_of_length_eq_zero (by omega)
    subst this
    rw [packbitsEncode_nil]
    simp
  | succ n ih =>
    intro l hl
    match l with
    | [] =>
      rw [packbitsEncode_nil]
      simp
    | b :: rest =>
      simp only [List.length_cons] at hl
      by_cases h2 : 2 ≤ runLength b rest + 1
      · rw [packbitsEncode_cons, if_pos h2]
        set m := min (runLength b rest + 1) 128 with hm
        have hm2 : 2 ≤ m := by rw [hm]; omega
        have hrec := ih (List.drop (m - 1) rest) (by simp only [List.length_drop]; omega)
        simp only [List.length_cons, List.length_drop] at hrec ⊢
        omega
      · rw [packbitsEncode_cons, if_neg h2]
        have hrun0 : runLength b rest = 0 := by omega
        set k := min (literalLength (b :: rest)) 128 with hk
        have hk1 : 1 ≤ k := by
          have := literalLength_pos b rest hrun0
          rw [hk]; omega
        have hkrest : k - 1 ≤ rest.length := by
          have := literalLength_le (b :: rest)
          simp only [List.length_cons] at this
          rw [hk]; omega
        have hrec := ih (List.drop (k - 1) rest) (by simp only [List.length_drop]; omega)
        simp only [List.length_cons, List.length_append, List.length_take,
          List.length_drop] at hrec ⊢
        omega

/-- Worst-case expansion of the modelled compressor: at most twice the
input length. -/
theorem packbitsEncode_length_le (l : List Nat) :
    (packbitsEncode l).length ≤ 2 * l.length :=
  packbitsEncode_length_le_aux l.length l (Nat.le_refl _)

/-- A nonempty byte string of at most 128 bytes with no two adjacent equal
bytes compresses to a single literal run: one control byte followed by the
bytes verbatim. -/
theorem packbitsEncode_of_chain (b : Nat) (rest : List Nat)
    (hch : List.Chain' (· ≠ ·) (b :: rest)) (hlen : (b :: rest).length ≤ 128) :
    packbitsEncode (b :: rest) = ((b :: rest).length - 1) :: (b :: rest) := by
  have hrun0 : runLength b rest = 0 := by
    match rest with
    | [] => rfl
    | c :: r2 =>
      rw [List.chain'_cons] at hch
      simp only [runLength, if_neg (fun h : c = b => hch.1 h.symm)]
  have hlit : literalLength (b :: rest) = (b :: rest).length :=
    literalLength_of_chain _ hch
  rw [packbitsEncode_cons, if_neg (by omega)]
  have hk : min (literalLength (b :: rest)) 128 = rest.length + 1 := by
    simp only [List.length_cons] at hlit hlen
    omega
  rw [hk]
  simp only [List.length_cons, Nat.add_sub_cancel, List.take_length,
    List.drop_length, packbitsEncode_nil, List.append_nil]

/-- A length-16 chunk is all-zero exactly when it equals `ZERO_CHUNK`. -/
theorem all_zero_iff_eq_zero_chunk (c : List Nat) (hc : c.length = 16) :
    (∀ b ∈ c, b = 0) ↔ c = ZERO_CHUNK := by
  rw [ZERO_CHUNK, CHUNK_SIZE, List.eq_replicate_iff]
  constructor
  · intro h; exact ⟨hc, h⟩
  · intro h; exact h.2

/-- Unfolding lemma for `rasterLineDecode` on a compressed line. -/
theorem rasterLineDecode_compressed (l0 l1 : Nat) (payload : List Nat) :
    rasterLineDecode (0x47 :: l0 :: l1 :: payload) =
      if payload.length = l0 + 256 * l1 then packbitsDecode payload else none :=
  rfl

/-- C5: a 16-byte chunk of all zero bytes encodes to the single byte `0x5A`
(wire length 1); any other 16-byte chunk encodes to the command byte `0x47`,
a 2-byte little-endian integer equal to the compressed payload's length,
then exactly that payload. -/
theorem C5_raster_wire_form (c : List Nat) (hc : c.length = 16) :
    ((∀ b ∈ c, b = 0) → rasterizeChunk c = [0x5A]) ∧
    (¬(∀ b ∈ c, b = 0) →
      rasterizeChunk c =
        0x47 :: (packbitsEncode c).length % 256 ::
          (packbitsEncode c).length / 256 % 256 :: packbitsEncode c ∧
      (packbitsEncode c).length % 256 +
          256 * ((packbitsEncode c).length / 256 % 256) =
        (packbitsEncode c).length) := by
  have hbound : (packbitsEncode c).length ≤ 32 := by
    have := packbitsEncode_length_le c
    omega
  constructor
  · intro hz
    rw [rasterizeChunk, if_pos ((all_zero_iff_eq_zero_chunk c hc).mp hz)]
  · intro hz
    have hne : ¬(c = ZERO_CHUNK) := fun h =>
      hz ((all_zero_iff_eq_zero_chunk c hc).mpr h)
    constructor
    · rw [rasterizeChunk, if_neg hne]
      rfl
    · have h1 : (packbitsEncode c).length % 256 = (packbitsEncode c).length := by
        omega
      have h2 : (packbitsEncode c).length / 256 = 0 := by omega
      rw [h1, h2]
      simp

/-- Witness for `C5_raster_wire_form` at the all-zero chunk and at a chunk
of sixteen `0x01` bytes. -/
theorem C5_raster_wire_form_witness :
    rasterizeChunk (List.replicate 16 0) = [0x5A] ∧
    (rasterizeChunk (List.replicate 16 1) =
        0x47 :: (packbitsEncode (List.replicate 16 1)).length % 256 ::
          (packbitsEncode (List.replicate 16 1)).length / 256 % 256 ::
            packbitsEncode (List.replicate 16 1) ∧
      (packbitsEncode (List.replicate 16 1)).length % 256 +
          256 * ((packbitsEncode (List.replicate 16 1)).length / 256 % 256) =
        (packbitsEncode (List.replicate 16 1)).length) :=
  ⟨(C5_raster_wire_form (List.replicate 16 0) (by decide)).1 (by decide),
   (C5_raster_wire_form (List.replicate 16 1) (by decide)).2 (by decide)⟩

/-- C6: decoding the raster-line encoding of any 16-byte chunk reconstructs
exactly the original chunk; the `0x5A` line decodes to sixteen zero bytes
and a compressed payload is decoded by the PackBits control-byte rules. -/
theorem C6_roundtrip (c : List Nat) (hc : c.length = 16) :
    rasterLineDecode (rasterizeChunk c) = some c := by
  by_cases hz : c = ZERO_CHUNK
  · rw [rasterizeChunk, if_pos hz, hz]
    rfl
  · rw [rasterizeChunk, if_neg hz]
    have hshape : (0x47 : Nat) :: (toBytesLE2 (packbitsEncode c).length ++ packbitsEncode c) =
        0x47 :: (packbitsEncode c).length % 256 ::
          (packbitsEncode c).length / 256 % 256 :: packbitsEncode c := rfl
    rw [hshape, rasterLineDecode_compressed]
    have hbound : (packbitsEncode c).length ≤ 32 := by
      have := packbitsEncode_length_le c
      omega
    rw [if_pos (by omega)]
    exact packbits_roundtrip c

/-- Witness for `C6_roundtrip` at the chunk `0, 1, 2, …, 15`. -/
theorem C6_roundtrip_witness :
    rasterLineDecode (rasterizeChunk (List.range 16)) = some (List.range 16) :=
  C6_roundtrip (List.range 16) (by decide)

/-- C7: a 16-byte chunk with no run of two or more identical adjacent bytes
compresses to a payload of at most 17 bytes, and every 16-byte chunk
compresses to a payload of at most 32 bytes. -/
theorem C7_compression_bounds :
    (∀ c : List Nat, c.length = 16 → List.Chain' (· ≠ ·) c →
      (packbitsEncode c).length ≤ 17) ∧
    (∀ c : List Nat, c.length = 16 → (packbitsEncode c).length ≤ 32) := by
  constructor
  · intro c hc hch
    match c with
    | b :: rest =>
      rw [packbitsEncode_of_chain b rest hch (by omega)]
      simp only [List.length_cons] at hc ⊢
      omega
  · intro c hc
    have := packbitsEncode_length_le c
    omega

/-- Witness for `C7_compression_bounds` at `0, 1, …, 15` (no adjacent
repeats) and at sixteen `0x07` bytes. -/
theorem C7_compression_bounds_witness :
    (packbitsEncode [0, 1, 2, 3, 4, 5, 6, 7, 8, 9, 10, 11, 12, 13, 14, 15]).length ≤ 17 ∧
    (packbitsEncode (List.replicate 16 7)).length ≤ 32 :=
  ⟨C7_compression_bounds.1 [0, 1, 2, 3, 4, 5, 6, 7, 8, 9, 10, 11, 12, 13, 14, 15]
      (by decide) (by simp [List.chain'_cons]),
   C7_compression_bounds.2 (List.replicate 16 7) (by decide)⟩

/-- C8: a status response whose length is not exactly 32 bytes is rejected
with `InvalidStatusResponse` carrying that length, before any field is
extracted (the parser returns the error instead of a field record), whatever
the bytes' content; the full receive path surfaces the same error. -/
theorem C8_length_guard (raw : List Nat) (h : raw.length ≠ 32) :
    parseRawStatusMessage raw = .error (.invalidStatusResponse raw.length) ∧
    receiveStatusInformationResponse raw = .error (.invalidStatusResponse raw.length) := by
  have hp : parseRawStatusMessage raw = .error (.invalidStatusResponse raw.length) := by
    rw [parseRawStatusMessage, if_pos h]
  refine ⟨hp, ?_⟩
  rw [receiveStatusInformationResponse, hp]
  rfl

/-- Witness for `C8_length_guard` at the 3-byte input `[0, 0, 0]`. -/
theorem C8_length_guard_witness :
    parseRawStatusMessage [0, 0, 0] = .error (.invalidStatusResponse 3) ∧
    receiveStatusInformationResponse [0, 0, 0] = .error (.invalidStatusResponse 3) :=
  C8_length_guard [0, 0, 0] (by decide)

/-- C9: an image whose row count differs from the row height configured for
the requested tape width fails with `InvalidImageHeight{required, actual}`
and no buffer is produced. -/
theorem C9_image_height_guard (rows : List (List Nat)) (tape_mm expected : Nat)
    (hpx : TAPE_MM_TO_PX tape_mm = some expected) (hne : rows.length ≠ expected) :
    encode_png rows tape_mm = .error (.inr (expected, rows.length)) := by
  rw [encode_png, hpx]
  simp only [if_pos hne]

/-- Witness for `C9_image_height_guard`: a 100-row image against the 24 mm
profile (which requires 128 rows) fails with `InvalidImageHeight{128, 100}`. -/
theorem C9_image_height_guard_witness :
    encode_png (List.replicate 100 ([] : List Nat)) 24 = .error (.inr (128, 100)) :=
  C9_image_height_guard (List.replicate 100 []) 24 128 rfl (by decide)

/-- C1 counterexample: the frame with `byte[18] = 0x02` and
`byte[8] = 0x05` has error-information-1 bit `0x01` set, so the claim's
first-matching-bit rule gives `NoMedia`; the code compares the whole byte
for equality (`0x05 ≠ 0x01`, `0x05 ≠ 0x04`, …) and falls through to
`UnknownStatusMessage`. -/
theorem C1_counterexample :
    receiveStatusInformationResponse (errorFrame 0x05 0x00) =
      .error .unknownStatusMessage ∧
    specErrorClassify 0x05 0x00 = .noMedia ∧
    (errorFrame 0x05 0x00).getD 8 0 &&& 0x01 ≠ 0 :=
  ⟨rfl, rfl, by decide⟩

/-- C1 amended: for a 32-byte frame with `byte[18] = 0x02` the code
classifies by comparing `error_information1` (offset 8) for *equality* with
`0x01`, `0x04`, `0x08`, `0x40` in that order, then `error_information2`
(offset 9) with `0x01`, `0x10`, `0x20`, falling through to
`UnknownStatusMessage`; in particular `byte[8] = 0x04` still wins over
`byte[9] = 0x10`. -/
theorem C1_error_priority (raw : List Nat) (h32 : raw.length = 32)
    (hs : raw.getD 18 0 = 0x02) :
    receiveStatusInformationResponse raw = .error
      (if raw.getD 8 0 = 0x01 then .noMedia
       else if raw.getD 8 0 = 0x04 then .cutterJam
       else if raw.getD 8 0 = 0x08 then .weakBatteries
       else if raw.getD 8 0 = 0x40 then .highVoltageAdapter
       else if raw.getD 9 0 = 0x01 then .wrongMedia
       else if raw.getD 9 0 = 0x10 then .coverOpen
       else if raw.getD 9 0 = 0x20 then .overheating
       else .unknownStatusMessage) := by
  have hp : parseRawStatusMessage raw = .ok
      { error_information1 := raw.getD 8 0
        error_information2 := raw.getD 9 0
        media_width := raw.getD 10 0
        media_type := raw.getD 11 0
        mode := raw.getD 15 0
        media_length := raw.getD 17 0
        status_type := raw.getD 18 0
        phase_number := raw.getD 20 0 * 256 + raw.getD 21 0
        phase_type := raw.getD 19 0
        notification_number := raw.getD 22 0
        tape_color := raw.getD 24 0
        text_color := raw.getD 25 0
        hardware_settings := raw.getD 26 0 } := by
    rw [parseRawStatusMessage, if_neg (by omega)]
  rw [receiveStatusInformationResponse, hp]
  show classifyStatus _ = _
  rw [classifyStatus]
  simp only [hs, StatusType.TURNED_OFF, StatusType.REPLY_TO_STATUS_REQUEST,
    StatusType.PRINTING_COMPLETED, StatusType.NOTIFICATION,
    StatusType.PHASE_CHANGE, StatusType.ERROR_OCCURRED]
  norm_num
  split_ifs <;> rfl

/-- Witness for `C1_error_priority`: `byte[8] = 0x04` with `byte[9] = 0x10`
also set classifies as `CutterJam`. -/
theorem C1_error_priority_witness :
    receiveStatusInformationResponse (errorFrame 0x04 0x10) = .error .cutterJam := by
  have h := C1_error_priority (errorFrame 0x04 0x10) (by decide) (by decide)
  rw [h]
  rfl

/-- Length of the fuel-indexed line packer. -/
theorem packLineGo_length :
    ∀ (fuel : Nat) (l : List Nat), l.length ≤ fuel →
      (packLineGo fuel l).length = (l.length + 7) / 8 := by
  intro fuel
  induction fuel with
  | zero =>
    intro l h
    have : l = [] := List.eq_nil_of_length_eq_zero (by omega)
    subst this
    rfl
  | succ fuel ih =>
    intro l h
    match l with
    | [] => rfl
    | a :: rest =>
      simp only [packLineGo, List.length_cons]
      simp only [List.length_cons] at h
      rw [ih (rest.drop 7) (by simp only [List.length_drop]; omega)]
      simp only [List.length_drop]
      omega

/-- One packed line holds one byte per 8 pixel values, rounded up. -/
theorem packLine_length (l : List Nat) : (packLine l).length = (l.length + 7) / 8 :=
  packLineGo_length l.length l (Nat.le_refl _)

/-- The alpha extraction keeps one value in four. -/
theorem alphaChannel_length (r : List Nat) : (alphaChannel r).length = r.length / 4 := by
  induction r using alphaChannel.induct with
  | case1 h1 h2 h3 a rest ih =>
    simp only [alphaChannel, List.length_cons, ih]
    omega
  | case2 t h =>
    match t, h with
    | [], _ => rfl
    | [_], _ => simp [alphaChannel]
    | [_, _], _ => simp [alphaChannel]
    | [_, _, _], _ => simp [alphaChannel]
    | a :: b :: c :: d :: rest, h => exact (h a b c d rest rfl).elim

/-- Folding `min` over lists that all have length `w`, starting from `w`. -/
theorem foldl_min_const (w : Nat) (ls : List (List Nat))
    (h : ∀ r ∈ ls, r.length = w) :
    ls.foldl (fun m r => min m r.length) w = w := by
  induction ls with
  | nil => rfl
  | cons r t ih =>
    simp only [List.foldl_cons, h r (by simp), min_self]
    exact ih fun x hx => h x (by simp [hx])

/-- `minLength` of uniformly sized rows. -/
theorem minLength_const (l : List Nat) (ls : List (List Nat)) (w : Nat)
    (hl : l.length = w) (h : ∀ r ∈ ls, r.length = w) : minLength l ls = w := by
  rw [minLength, hl]
  exact foldl_min_const w ls h

/-- Sum of a list of naturals that are all equal. -/
theorem sum_of_all_eq (L : List Nat) (c : Nat) (h : ∀ x ∈ L, x = c) :
    L.sum = L.length * c := by
  induction L with
  | nil => simp
  | cons a t ih =>
    simp only [List.sum_cons, List.length_cons, h a (by simp),
      ih fun x hx => h x (by simp [hx]), Nat.succ_mul]
    omega

/-- Every row of the tape-profile table satisfies `row px + 2 · margin px = 128`. -/
theorem profile_sum_128 (mm px m : Nat) (h1 : TAPE_MM_TO_PX mm = some px)
    (h2 : TAPE_MM_TO_MARGIN_PX mm = some m) : px + 2 * m = 128 := by
  rw [TAPE_MM_TO_PX] at h1
  rw [TAPE_MM_TO_MARGIN_PX] at h2
  split_ifs at h1 h2 <;> simp_all <;> omega

/-- Every configured row height is positive. -/
theorem profile_px_pos (mm px : Nat) (h1 : TAPE_MM_TO_PX mm = some px) :
    0 < px := by
  rw [TAPE_MM_TO_PX] at h1
  split_ifs at h1 <;> simp_all <;> omega

/-- C10: every tape profile satisfies `row px + 2 · margin px = 128`, so
every margin-padded scan line packs to exactly 16 bytes, and the encoder's
output buffer for an image of `width` columns (RGBA rows of `4 * width`
values) has length exactly `16 * width` — a whole number of 16-byte codec
chunks, one per scan line. -/
theorem C10_line_geometry :
    (∀ mm px m, TAPE_MM_TO_PX mm = some px → TAPE_MM_TO_MARGIN_PX mm = some m →
      px + 2 * m = 128) ∧
    (∀ (rows : List (List Nat)) (tape_mm width : Nat) (buf : List Nat),
      (∀ r ∈ rows, r.length = 4 * width) →
      encode_png rows tape_mm = .ok buf → buf.length = 16 * width) := by
  refine ⟨profile_sum_128, ?_⟩
  intro rows tape_mm width buf hrows henc
  cases hpx : TAPE_MM_TO_PX tape_mm with
  | none =>
    rw [encode_png, hpx] at henc
    exact absurd henc (by simp)
  | some expected =>
    rw [encode_png, hpx] at henc
    dsimp only at henc
    by_cases hlen : rows.length ≠ expected
    · rw [if_pos hlen] at henc
      exact absurd henc (by simp)
    · push_neg at hlen
      rw [if_neg (by omega)] at henc
      cases hm : TAPE_MM_TO_MARGIN_PX tape_mm with
      | none =>
        rw [hm] at henc
        exact absurd henc (by simp)
      | some marginPx =>
        rw [hm] at henc
        dsimp only at henc
        simp only [Except.ok.injEq] at henc
        have hsum : expected + 2 * marginPx = 128 := profile_sum_128 _ _ _ hpx hm
        have hpos : 0 < expected := profile_px_pos _ _ hpx
        obtain ⟨r0, rs, rfl⟩ : ∃ r0 rs, rows = r0 :: rs := by
          cases rows with
          | nil => simp at hlen; omega
          | cons r0 rs => exact ⟨r0, rs, rfl⟩
        have halpha : ∀ r ∈ r0 :: rs, (alphaChannel r).length = width := by
          intro r hr
          rw [alphaChannel_length, hrows r hr]
          omega
        have hmap : (r0 :: rs).map alphaChannel =
            alphaChannel r0 :: rs.map alphaChannel := List.map_cons ..
        have hmin : minLength (alphaChannel r0) (rs.map alphaChannel) = width := by
          refine minLength_const _ _ _ (halpha r0 (by simp)) ?_
          intro r hr
          obtain ⟨r', hr', rfl⟩ := List.mem_map.mp hr
          exact halpha r' (by simp [hr'])
        have hz : pyZip (alphaChannel r0 :: rs.map alphaChannel) =
            (List.range (minLength (alphaChannel r0) (rs.map alphaChannel))).map
              (fun i => (alphaChannel r0 :: rs.map alphaChannel).map
                (fun r => r.getD i 0)) := rfl
        have hlinelen : ∀ line ∈ pyZip ((r0 :: rs).map alphaChannel),
            line.length = expected := by
          intro line hline
          rw [hmap, hz] at hline
          obtain ⟨i, _, rfl⟩ := List.mem_map.mp hline
          simp only [List.length_map, List.length_cons]
          simp only [List.length_cons] at hlen
          omega
        subst henc
        rw [List.length_flatten]
        rw [sum_of_all_eq _ 16 ?_]
        · simp only [List.length_map, hmap, hz, List.length_range, hmin]
          omega
        · intro x hx
          obtain ⟨y, hy, rfl⟩ := List.mem_map.mp hx
          obtain ⟨line, hline, rfl⟩ := List.mem_map.mp hy
          rw [packLine_length]
          simp only [List.length_append, List.length_replicate,
            hlinelen line hline]
          omega

/-- Witness for `C10_line_geometry`: the 12 mm profile (70 px rows, 29 px
margins) sums to 128, and a one-column 24 mm image (128 RGBA rows of 4
zero values) encodes to a 16-byte buffer. -/
theorem C10_line_geometry_witness :
    70 + 2 * 29 = 128 ∧ (List.replicate 16 0 : List Nat).length = 16 * 1 :=
  ⟨C10_line_geometry.1 12 70 29 rfl rfl,
   C10_line_geometry.2 (List.replicate 128 [0, 0, 0, 0]) 24 1 (List.replicate 16 0)
     (by intro r hr; rw [List.eq_of_mem_replicate hr]; rfl)
     (by set_option maxRecDepth 10000 in rfl)⟩

/-- The concrete reply frame parses and classifies as `ReplyToStatusRequest`. -/
theorem receive_replyFrame :
    receiveStatusInformationResponse replyFrame = .ok .replyToStatusRequest := rfl

/-- The concrete completed frame parses and classifies as `PrintingCompleted`. -/
theorem receive_completedFrame :
    receiveStatusInformationResponse completedFrame = .ok .printingCompleted := rfl

/-- The completion-wait loop, fed any number of reply frames and nothing
else, consumes them all and is left blocking in `receive`. -/
theorem poll_reply_replicate (k : Nat) :
    pollUntilCompleted .replyToStatusRequest (List.replicate k replyFrame) =
      (List.replicate k (.recv replyFrame), .error none) := by
  induction k with
  | zero => rfl
  | succ k ih =>
    rw [List.replicate_succ]
    have h1 : pollUntilCompleted StatusMsg.replyToStatusRequest
        (replyFrame :: List.replicate k replyFrame) =
        (Event.recv replyFrame ::
          (pollUntilCompleted StatusMsg.replyToStatusRequest
            (List.replicate k replyFrame)).1,
         (pollUntilCompleted StatusMsg.replyToStatusRequest
            (List.replicate k replyFrame)).2) := rfl
    rw [h1, ih]
    rfl

/-- The completion-wait loop run over `k` reply frames, one completed frame
and arbitrary further traffic: it consumes exactly the `k + 1` frames up to
and including the completion and leaves the rest unread. -/
theorem poll_reply_completed (k : Nat) (rest : List (List Nat)) :
    pollUntilCompleted .replyToStatusRequest
        (List.replicate k replyFrame ++ completedFrame :: rest) =
      (List.replicate k (.recv replyFrame) ++ [.recv completedFrame],
       .ok (.printingCompleted, rest)) := by
  induction k with
  | zero =>
    simp only [List.replicate_zero, List.nil_append]
    cases rest <;> rfl
  | succ k ih =>
    rw [List.replicate_succ, List.cons_append]
    have h1 : pollUntilCompleted StatusMsg.replyToStatusRequest
        (replyFrame :: (List.replicate k replyFrame ++ completedFrame :: rest)) =
        (Event.recv replyFrame ::
          (pollUntilCompleted StatusMsg.replyToStatusRequest
            (List.replicate k replyFrame ++ completedFrame :: rest)).1,
         (pollUntilCompleted StatusMsg.replyToStatusRequest
            (List.replicate k replyFrame ++ completedFrame :: rest)).2) := rfl
    rw [h1, ih]
    rfl

/-- C3: the completion-wait loop of `print_image` has no iteration bound and
no timeout: a 1-copy session whose transport answers the initial status
request and then any finite number `k` of further reply frames — never a
PrintingCompleted frame — always ends blocked inside `receive`, for every
`k`; no `PrintTimeout` error exists anywhere in the code's error taxonomy. -/
theorem C3_completion_wait_unbounded (data : List Nat) (k : Nat) :
    (printImage data 1 (replyFrame :: List.replicate k replyFrame)).out = .blocked := by
  have h1 : (printImage data 1 (replyFrame :: List.replicate k replyFrame)).out =
      (copiesLoop data 1 0 1 .replyToStatusRequest (List.replicate k replyFrame)).out :=
    rfl
  rw [h1]
  simp only [copiesLoop, poll_reply_replicate]

/-- The completion-wait loop does not run at all when the current status is
already `PrintingCompleted`: no frame is read. -/
theorem poll_completed (frames : List (List Nat)) :
    pollUntilCompleted .printingCompleted frames =
      ([], .ok (.printingCompleted, frames)) := by
  cases frames <;> rfl

/-- C2 amended: a 2-copy session over a transport that answers the initial
status request with a reply frame and then delivers `k` reply frames, one
PrintingCompleted frame and arbitrary further traffic: the session sends the
handshake and configuration, then copy 1's raster lines (one per 16-byte
chunk, in order) and the no-feed print command `0x0C`, then polls until the
PrintingCompleted frame; copy 2's raster lines and the print-and-feed
command `0x1A` follow, and the session finishes *without any further
polling* — the `status` variable still holds the first copy's
PrintingCompleted, so the completion wait is skipped for the second copy. -/
theorem C2_two_copies_trace (data : List Nat) (k : Nat) (rest : List (List Nat)) :
    printImage data 2
        (replyFrame :: (List.replicate k replyFrame ++ completedFrame :: rest)) =
      ⟨.done,
        [.send (List.replicate 100 0), .send [0x1B, 0x40], .send [0x1B, 0x69, 0x53],
         .recv replyFrame]
        ++ configSends data.length
        ++ rasterDataSends data ++ [.send [0x0C]]
        ++ List.replicate k (.recv replyFrame) ++ [.recv completedFrame]
        ++ rasterDataSends data ++ [.send [0x1A]]⟩ := by
  have h1 : printImage data 2
      (replyFrame :: (List.replicate k replyFrame ++ completedFrame :: rest)) =
      ⟨(copiesLoop data 2 0 2 .replyToStatusRequest
          (List.replicate k replyFrame ++ completedFrame :: rest)).out,
       ([.send (List.replicate 100 0), .send [0x1B, 0x40], .send [0x1B, 0x69, 0x53]]
          ++ [.recv replyFrame] ++ configSends data.length
          ++ (copiesLoop data 2 0 2 .replyToStatusRequest
              (List.replicate k replyFrame ++ completedFrame :: rest)).events)⟩ := rfl
  rw [h1]
  have hc : copiesLoop data 2 0 2 .replyToStatusRequest
      (List.replicate k replyFrame ++ completedFrame :: rest) =
      ⟨.done,
        (rasterDataSends data ++ [.send [0x0C]])
        ++ (List.replicate k (.recv replyFrame) ++ [.recv completedFrame])
        ++ ((rasterDataSends data ++ [.send [0x1A]]) ++ [] ++ [])⟩ := by
    simp only [copiesLoop, poll_reply_completed, poll_completed]
    rfl
  rw [hc]
  simp [List.append_assoc]

/-- C2 counterexample: with `num_copies = 2` and a transport delivering one
reply frame (for the handshake) and exactly one PrintingCompleted frame, the
session runs to completion — the trace's last event is the second print
command `0x1A` itself (so no status frame is received after it), and only
one PrintingCompleted frame is ever received in the whole session.  The
claim requires a poll observing PrintingCompleted after *each* copy's print
command before advancing or finishing, which would need at least two such
receptions and at least one receive event after the final print command. -/
theorem C2_counterexample :
    (printImage (List.replicate 16 1) 2 [replyFrame, completedFrame]).out = .done ∧
    (printImage (List.replicate 16 1) 2 [replyFrame, completedFrame]).events.getLast? =
      some (.send [0x1A]) ∧
    (printImage (List.replicate 16 1) 2 [replyFrame, completedFrame]).events.count
      (.recv completedFrame) = 1 := by
  refine ⟨by decide, by decide, by decide⟩

/-- C4: the print-information command ignores the job's tape width — its
sixth byte (offset 5) is the hardcoded constant `0x18` (24 mm) for every
data length, the spot marked `@TODO tape width is set here` in the source;
the rest of the frame is `1B 69 7A 84 00 <W> 00`, the 4-byte little-endian
encoding of `data_length >> 4`, then `00 00`, as the claim states. -/
theorem C4_print_information_hardcoded_width (data_length : Nat) :
    printInformationCommand data_length =
      [0x1B, 0x69, 0x7A, 0x84, 0x00, 0x18, 0x00] ++
        toBytesLE4 (data_length >>> 4) ++ [0x00, 0x00] ∧
    (printInformationCommand data_length).getD 5 0 = 0x18 :=
  ⟨rfl, rfl⟩

end PtP710
